import Mathlib

/-!
Verification development for the `ai-doc-generator` document assembly engine.

The definitions below are a shallow embedding of the Python sources, chiefly
`src/agents/content_writer_agent.py` (markdown-to-docx conversion, inline
formatting, the section scheduler), `src/agents/web_research_agent.py`
(the `retry_with_backoff` decorator) and `src/agents/image_generation_agent.py`
(image generation with input validation).  Strings are modelled as `List Char`
where character-level scanning matters; external collaborators (the LLM, the
image backend, the HTTP download) are modelled as oracle function parameters.
-/

namespace AIDocGen

/-! ## Python string primitives

These model the exact Python `str` operations the agent code uses:
`str.strip`, `str.split` (single-character and substring separators),
`str.replace`, substring membership (`"x" in s`), and `str.startswith`.
-/

/-- Python whitespace characters recognised by `str.strip()` and `\s`
(ASCII subset, which is all the agent code ever meets). -/
def isPyWS (c : Char) : Bool :=
  c = ' ' || c = '\t' || c = '\n' || c = '\r' || c = '\x0b' || c = '\x0c'

/-- Drop the longest suffix whose characters satisfy `p`. -/
def dropTrailing (p : Char → Bool) (cs : List Char) : List Char :=
  (cs.reverse.dropWhile p).reverse

/-- Strip characters satisfying `p` from both ends (Python `str.strip(chars)`). -/
def stripBy (p : Char → Bool) (cs : List Char) : List Char :=
  dropTrailing p (cs.dropWhile p)

/-- Python `s.strip()`. -/
def pyStrip (s : String) : String :=
  (stripBy isPyWS s.data).asString

/-- Python `s.split(sep)` for a single-character separator:
`n` separators yield `n + 1` parts. -/
def splitOnChar (sep : Char) : List Char → List (List Char)
  | [] => [[]]
  | c :: cs =>
    if c = sep then [] :: splitOnChar sep cs
    else
      match splitOnChar sep cs with
      | [] => [[c]]
      | h :: t => (c :: h) :: t

/-- Does `cs` start with `pat`? (Python `str.startswith`.) -/
def startsWithList (pat cs : List Char) : Bool :=
  match pat, cs with
  | [], _ => true
  | _ :: _, [] => false
  | p :: ps, c :: cs => p = c && startsWithList ps cs

/-- Substring membership, Python `pat in s`. -/
def containsSub (pat : List Char) : List Char → Bool
  | [] => startsWithList pat []
  | c :: cs => startsWithList pat (c :: cs) || containsSub pat cs

/-- Delete every occurrence of `pat` (Python `s.replace(pat, "")`),
scanning left to right over non-overlapping occurrences. -/
def removeAll (pat : List Char) : List Char → List Char
  | [] => []
  | c :: cs =>
    if startsWithList pat (c :: cs) && !pat.isEmpty then
      removeAll pat ((c :: cs).drop pat.length)
    else
      c :: removeAll pat cs
termination_by cs => cs.length
decreasing_by
  · simp only [List.length_drop, List.length_cons]
    rename_i hc
    have hpat : 1 ≤ pat.length := by
      cases pat with
      | nil => simp at hc
      | cons a as => simp [List.length]
    omega
  · simp

/-- Python `s.replace(p, r)` where the pattern is a single character:
every occurrence of the character is replaced. -/
def pyReplaceChar (p r : Char) : List Char → List Char
  | [] => []
  | c :: cs => (if c = p then r else c) :: pyReplaceChar p r cs

/-- Python `s.split("\n\n")`: split on the two-character separator,
left to right, non-overlapping. -/
def splitParasGo (acc : List Char) : List Char → List (List Char)
  | '\n' :: '\n' :: cs => acc.reverse :: splitParasGo [] cs
  | '\n' :: cs => splitParasGo ('\n' :: acc) cs
  | c :: cs => splitParasGo (c :: acc) cs
  | [] => [acc.reverse]

def splitParas (cs : List Char) : List (List Char) :=
  splitParasGo [] cs

/-! ## Inline formatter (`ContentWriterAgent._process_formatting`)

A paragraph is a sequence of runs; each `paragraph.add_run` call in the Python
code appends one `Run`.  The boolean fields mirror the presentation attributes
the code sets (`run.bold`, `run.italic`, monospace font for inline code, and
blue/underline for links). -/

structure Run where
  text : String
  bold : Bool := false
  italic : Bool := false
  code : Bool := false
  link : Bool := false
deriving DecidableEq, Repr

/-- Lazy group up to a closing character: Python regex `(.+?)stop`.
The group is nonempty, contains no newline (`.` does not match `\n`),
and ends at the first viable `stop`. Returns `(group, rest-after-stop)`. -/
def lazyGroupToGo (stop : Char) (acc : List Char) :
    List Char → Option (List Char × List Char)
  | [] => none
  | c :: cs =>
    if c = stop then some (acc.reverse, cs)
    else if c = '\n' then none
    else lazyGroupToGo stop (c :: acc) cs

/-- `(.+?)stop`: consume one mandatory character, then scan for `stop`. -/
def lazyGroupTo (stop : Char) : List Char → Option (List Char × List Char)
  | [] => none
  | c :: cs => if c = '\n' then none else lazyGroupToGo stop [c] cs

/-- Match `(.+?)\]\((.+?)\)` after an opening `[`: the regex engine lazily
grows group 1, and on each `](` boundary tries to close group 2 at the first
`)`; failure backtracks by absorbing the `]` into group 1.
Returns `(text, url, rest)`. -/
def linkBodyGo (acc : List Char) : List Char → Option (List Char × List Char × List Char)
  | [] => none
  | ']' :: rest =>
    match rest with
    | '(' :: cs2 =>
      match lazyGroupTo ')' cs2 with
      | some (url, r2) => some (acc.reverse, url, r2)
      | none => linkBodyGo (']' :: acc) rest
    | _ => linkBodyGo (']' :: acc) rest
  | c :: cs => if c = '\n' then none else linkBodyGo (c :: acc) cs

def linkBody : List Char → Option (List Char × List Char × List Char)
  | [] => none
  | c :: cs => if c = '\n' then none else linkBodyGo [c] cs

/-- `re.search(r"\[(.+?)\]\((.+?)\)", s)`: leftmost match.
Returns `(before, text, url, rest)`. -/
def searchLink : List Char → Option (List Char × List Char × List Char × List Char)
  | [] => none
  | '[' :: cs =>
    match linkBody cs with
    | some (t, u, r) => some ([], t, u, r)
    | none =>
      match searchLink cs with
      | some (b, t, u, r) => some ('[' :: b, t, u, r)
      | none => none
  | c :: cs =>
    match searchLink cs with
    | some (b, t, u, r) => some (c :: b, t, u, r)
    | none => none

/-- Match `(.+?)\*\*` after an opening `**` (lazy, non-newline). -/
def boldBodyGo (acc : List Char) : List Char → Option (List Char × List Char)
  | '*' :: rest =>
    match rest with
    | '*' :: cs => some (acc.reverse, cs)
    | _ => boldBodyGo ('*' :: acc) rest
  | c :: cs => if c = '\n' then none else boldBodyGo (c :: acc) cs
  | [] => none

def boldBody : List Char → Option (List Char × List Char)
  | [] => none
  | c :: cs => if c = '\n' then none else boldBodyGo [c] cs

/-- `re.search(r"\*\*(.+?)\*\*", s)`: leftmost match. Returns `(before, content, rest)`. -/
def searchBold : List Char → Option (List Char × List Char × List Char)
  | [] => none
  | '*' :: rest =>
    match rest with
    | '*' :: cs =>
      match boldBody cs with
      | some (t, r) => some ([], t, r)
      | none =>
        match searchBold rest with
        | some (b, t, r) => some ('*' :: b, t, r)
        | none => none
    | _ =>
      match searchBold rest with
      | some (b, t, r) => some ('*' :: b, t, r)
      | none => none
  | c :: cs =>
    match searchBold cs with
    | some (b, t, r) => some (c :: b, t, r)
    | none => none

/-- Close an italic span: `(.+?)(?<!\*)\*(?!\*)` — a `*` whose previous
character (the last of the group) is not `*` and whose next character is
not `*`; failed candidates are absorbed into the group. -/
def italBodyGo (last : Char) (acc : List Char) : List Char → Option (List Char × List Char)
  | '*' :: cs =>
    if last ≠ '*' && cs.head? ≠ some '*' then some (acc.reverse, cs)
    else italBodyGo '*' ('*' :: acc) cs
  | c :: cs => if c = '\n' then none else italBodyGo c (c :: acc) cs
  | [] => none

def italBody : List Char → Option (List Char × List Char)
  | [] => none
  | c :: cs => if c = '\n' then none else italBodyGo c [c] cs

/-- `re.search(r"(?<!\*)\*(?!\*)(.+?)(?<!\*)\*(?!\*)", s)`: leftmost single-`*`
span; `prev` carries the character before the current scan position for the
opening lookbehind. Returns `(before, content, rest)`. -/
def searchItalic (prev : Option Char) : List Char → Option (List Char × List Char × List Char)
  | [] => none
  | '*' :: cs =>
    if prev ≠ some '*' && cs.head? ≠ some '*' then
      match italBody cs with
      | some (t, r) => some ([], t, r)
      | none =>
        match searchItalic (some '*') cs with
        | some (b, t, r) => some ('*' :: b, t, r)
        | none => none
    else
      match searchItalic (some '*') cs with
      | some (b, t, r) => some ('*' :: b, t, r)
      | none => none
  | c :: cs =>
    match searchItalic (some c) cs with
    | some (b, t, r) => some (c :: b, t, r)
    | none => none

/-- Match the opening backtick of `` `(.+?)` `` and return `(before, content, rest)`. -/
def searchCode : List Char → Option (List Char × List Char × List Char)
  | [] => none
  | '`' :: cs =>
    match lazyGroupTo '`' cs with
    | some (t, r) => some ([], t, r)
    | none =>
      match searchCode cs with
      | some (b, t, r) => some ('`' :: b, t, r)
      | none => none
  | c :: cs =>
    match searchCode cs with
    | some (b, t, r) => some (c :: b, t, r)
    | none => none

/-- The bold branch of `_process_formatting` on the matched bold content:
an empty run with `bold` is added first; if a nested italic span is found,
the text before the span is appended to that run, the italic span becomes a
second (bold+italic) run, and the text *after* the span is appended to the
**first** run again (`run.text += after_italic`), so the first run ends up
holding `before ++ after` and precedes the nested run in paragraph order. -/
def boldRuns (content : List Char) : List Run :=
  match searchItalic none content with
  | some (beforeI, t, afterI) =>
    [{ text := (beforeI ++ afterI).asString, bold := true },
     { text := t.asString, bold := true, italic := true }]
  | none => [{ text := content.asString, bold := true }]

/-- The italic branch on matched italic content, mirroring `boldRuns` with one
nested bold span. -/
def italicRuns (content : List Char) : List Run :=
  match searchBold content with
  | some (beforeB, t, afterB) =>
    [{ text := (beforeB ++ afterB).asString, italic := true },
     { text := t.asString, bold := true, italic := true }]
  | none => [{ text := content.asString, italic := true }]

/-- The `while remaining_text:` loop of `_process_formatting`: links first,
then bold, italic, inline code; text before a match is processed recursively,
the remainder iteratively.  `fuel` bounds the recursion depth; every
recursive call is on a strictly shorter string, so `length + 1` fuel
always suffices. -/
def formatGo : Nat → List Char → List Run
  | 0, _ => []
  | _, [] => []
  | fuel + 1, cs =>
    match searchLink cs with
    | some (b, t, _, r) =>
      (if b.isEmpty then [] else formatGo fuel b)
        ++ [{ text := t.asString, link := true }] ++ formatGo fuel r
    | none =>
      match searchBold cs with
      | some (b, t, r) =>
        (if b.isEmpty then [] else formatGo fuel b) ++ boldRuns t ++ formatGo fuel r
      | none =>
        match searchItalic none cs with
        | some (b, t, r) =>
          (if b.isEmpty then [] else formatGo fuel b) ++ italicRuns t ++ formatGo fuel r
        | none =>
          match searchCode cs with
          | some (b, t, r) =>
            (if b.isEmpty then [] else formatGo fuel b)
              ++ [{ text := t.asString, code := true }] ++ formatGo fuel r
          | none => [{ text := cs.asString }]

/-- `ContentWriterAgent._apply_inline_formatting` / `_process_formatting`. -/
def processFormatting (s : String) : List Run :=
  formatGo (s.data.length + 1) s.data

/-! ## Block-level conversion (`ContentWriterAgent._convert_markdown_to_docx`)

Each constructor is one kind of content the method appends to the document:
headings, list items (one docx paragraph per line), tables (plus the spacing
paragraph added after them), images (the picture with caption added by
`_add_image`) or the `[Image generation failed]` placeholder, quotes, code
blocks and plain paragraphs. -/

inductive Block where
  | heading (level : Nat) (text : String)
  | bulletItem (runs : List Run)
  | numberItem (runs : List Run)
  | table (data : List (List String))
  | spacer
  | image (path : String) (caption : String)
  | imageFailed
  | quote (runs : List Run)
  | codeBlock (language : String) (body : String)
  | para (runs : List Run)
deriving DecidableEq, Repr

/-- Match `^\d+\.\s` at the start of a line: one or more digits, a dot, one
whitespace character.  Returns the whitespace character consumed and the rest
of the string after it. -/
def splitMarker (cs : List Char) : Option (Char × List Char) :=
  let ds := cs.takeWhile (fun c => c.isDigit)
  if ds.isEmpty then none
  else
    match cs.drop ds.length with
    | '.' :: w :: rest => if isPyWS w then some (w, rest) else none
    | _ => none

/-- `re.sub(r"^(\d+)\.\s", r"1. ", markdown_text, flags=re.MULTILINE)`:
at every line start, a numbered marker (digits, dot, one whitespace
character) is replaced by the literal three characters `1. `.  When the
consumed whitespace is itself a newline the following position is again a
line start.  `fuel` bounds recursion depth (length + 1 always suffices). -/
def renumGo : Nat → Bool → List Char → List Char
  | 0, _, _ => []
  | _, _, [] => []
  | fuel + 1, atStart, c :: cs =>
    if atStart then
      match splitMarker (c :: cs) with
      | some (w, rest) => '1' :: '.' :: ' ' :: renumGo fuel (w = '\n') rest
      | none => c :: renumGo fuel (c = '\n') cs
    else c :: renumGo fuel (c = '\n') cs

def renumber (s : String) : String :=
  (renumGo (s.data.length + 1) true s.data).asString

/-- `re.match(r"^(#+)\s+(.+)$", chunk)`: leading hashes, at least one
whitespace character (`\s+`, greedy with backtracking so the trailing
group is nonempty), and the rest of the line as the heading text.  `$`
matches at the end of the string or just before one final newline. -/
def headerBody (rest : List Char) : Nat → Option (List Char)
  | 0 => none
  | b + 1 =>
    let content := rest.drop (b + 1)
    if !content.isEmpty && !content.contains '\n' then some content
    else if content.getLast? = some '\n' && !content.dropLast.contains '\n'
        && !content.dropLast.isEmpty then some content.dropLast
    else headerBody rest b

def headerMatch (cs : List Char) : Option (Nat × String) :=
  let k := (cs.takeWhile (fun c => c = '#')).length
  if k = 0 then none
  else
    let rest := cs.drop k
    let m := (rest.takeWhile isPyWS).length
    if m = 0 then none
    else (headerBody rest m).map (fun c => (k, c.asString))

/-- One line of a list chunk: bullet lines and numbered lines become list
items (marker stripped, inline formatting applied); any other line inside
the chunk is skipped (the Python loop has no `else`). -/
def listLineBlock (line : List Char) : Option Block :=
  if startsWithList ['-', ' '] line || startsWithList ['*', ' '] line then
    some (Block.bulletItem (processFormatting (line.drop 2).asString))
  else
    match splitMarker line with
    | some (_, rest) => some (Block.numberItem (processFormatting rest.asString))
    | none => none

/-- The list-branch guard: chunk starts with `- ` or `* ` or matches `^\d+\.\s`. -/
def isListChunk (chunk : List Char) : Bool :=
  startsWithList ['-', ' '] chunk || startsWithList ['*', ' '] chunk
    || (splitMarker chunk).isSome

/-- One table row: `line.strip("|").split("|")` with each cell stripped. -/
def parseRow (line : List Char) : List String :=
  (splitOnChar '|' (stripBy (fun c => c = '|') line)).map
    (fun cell => (stripBy isPyWS cell).asString)

/-- The table-extraction loop: a line containing `---` anywhere is treated
as the separator and skipped; every other line becomes a row. -/
def tableData : List (List Char) → List (List String)
  | [] => []
  | l :: ls =>
    if containsSub ['-', '-', '-'] l then tableData ls
    else parseRow l :: tableData ls

/-- `re.search(r"!\[(.+?)\]\((.+?)\)", chunk)`: leftmost image reference.
Returns `(before, caption, description, rest)`. -/
def searchImage : List Char → Option (List Char × List Char × List Char × List Char)
  | [] => none
  | '!' :: rest =>
    match rest with
    | '[' :: cs =>
      match linkBody cs with
      | some (t, u, r) => some ([], t, u, r)
      | none =>
        match searchImage rest with
        | some (b, t, u, r) => some ('!' :: b, t, u, r)
        | none => none
    | _ =>
      match searchImage rest with
      | some (b, t, u, r) => some ('!' :: b, t, u, r)
      | none => none
  | c :: cs =>
    match searchImage cs with
    | some (b, t, u, r) => some (c :: b, t, u, r)
    | none => none

/-- `ContentWriterAgent._generate_and_save_image`: descriptions shorter than
10 characters are rejected locally (`return None`) without invoking the
image agent; otherwise the agent (oracle `agent`) is invoked once.  The
second component records the descriptions for which a generation call was
actually made. -/
def genAndSave (agent : String → String → Option String) (desc caption : String) :
    Option String × List String :=
  if desc.length < 10 then (none, [])
  else (agent desc caption, [desc])

/-- Scan for the closing ```` ``` ```` of a fenced code block: lazy body up
to a ```` ``` ```` that sits at the end of the chunk (or just before one
final newline, matching `$`). -/
def codeBodyScan (acc : List Char) : List Char → Option (List Char)
  | '`' :: rest =>
    match rest with
    | '`' :: '`' :: r2 =>
      if r2.isEmpty || r2 = ['\n'] then some acc.reverse
      else codeBodyScan ('`' :: acc) rest
    | _ => codeBodyScan ('`' :: acc) rest
  | c :: cs => codeBodyScan (c :: acc) cs
  | [] => none

/-- Split at the first newline (the lazy `(.*?)\n` language group). -/
def splitFirstNl (cs : List Char) : Option (List Char × List Char) :=
  match splitOnChar '\n' cs with
  | [] => none
  | [_] => none
  | h :: t => some (h, (List.intercalate ['\n'] t))

/-- `re.match(r"^```(.*?)\n(.*?)```$", chunk, re.DOTALL)`: opening fence,
language tag up to the first newline (then `.strip()`ed), body up to the
closing fence at the end. -/
def codeBlockMatch (cs : List Char) : Option (String × String) :=
  if startsWithList ['`', '`', '`'] cs then
    match splitFirstNl (cs.drop 3) with
    | none => none
    | some (langRaw, body0) =>
      match codeBodyScan [] body0 with
      | none => none
      | some body => some ((stripBy isPyWS langRaw).asString, body.asString)
  else none

/-- The quote / code-block / paragraph stage at the end of the chunk loop
(reached directly, or with image markup removed). -/
def tailStage (chunk : List Char) : List Block :=
  if startsWithList ['>', ' '] chunk then
    [Block.quote (processFormatting (removeAll ['>', ' '] chunk).asString)]
  else
    match codeBlockMatch chunk with
    | some (lang, body) => [Block.codeBlock lang body]
    | none => [Block.para (processFormatting chunk.asString)]

/-- The image branch: only taken when an image reference is found **and**
`images_dir` is set; generation goes through `genAndSave`, the matched
markup is removed from the chunk, and any remaining text falls through to
the quote/code/paragraph stage. -/
def imageStage (imagesDir : Option String) (agent : String → String → Option String)
    (chunk : List Char) : List Block × List String :=
  match imagesDir, searchImage chunk with
  | some _, some (_, cap, desc, _) =>
    let (res, gens) := genAndSave agent desc.asString cap.asString
    let imgBlock :=
      match res with
      | some path => Block.image path cap.asString
      | none => Block.imageFailed
    let matched := '!' :: '[' :: (cap ++ ']' :: '(' :: (desc ++ [')']))
    let newText := removeAll matched chunk
    if (stripBy isPyWS newText).isEmpty then ([imgBlock], gens)
    else (imgBlock :: tailStage newText, gens)
  | _, _ => (tailStage chunk, [])

/-- Classification of one paragraph chunk, in the source's branch order:
empty → skip; header; list; table (with fall-through when a line lacks `|`
or all lines were separators); image (when enabled); quote; code; paragraph. -/
def convertChunk (imagesDir : Option String) (agent : String → String → Option String)
    (chunk : List Char) : List Block × List String :=
  if (stripBy isPyWS chunk).isEmpty then ([], [])
  else
    match headerMatch chunk with
    | some (lvl, text) => ([Block.heading lvl text], [])
    | none =>
      if isListChunk chunk then
        ((splitOnChar '\n' chunk).filterMap listLineBlock, [])
      else
        let strippedLines := splitOnChar '\n' (stripBy isPyWS chunk)
        if chunk.contains '|' && strippedLines.all (fun l => l.contains '|')
            && !(tableData strippedLines).isEmpty then
          ([Block.table (tableData strippedLines), Block.spacer], [])
        else imageStage imagesDir agent chunk

/-- `_convert_markdown_to_docx`: renumber-preprocessing, split into
paragraph chunks on blank lines, then classify each chunk.  Returns the
emitted blocks in order and the list of image descriptions for which a
generation call was made. -/
def convertMarkdown (imagesDir : Option String) (agent : String → String → Option String)
    (text : String) : List Block × List String :=
  if text = "" then ([], [])
  else
    let pre := renumber text
    let chunks := splitParas (stripBy isPyWS pre.data)
    chunks.foldl
      (fun acc ch =>
        let (bs, gs) := convertChunk imagesDir agent ch
        (acc.1 ++ bs, acc.2 ++ gs))
      ([], [])

/-! ## Content generation (`ContentWriterAgent._generate_content`)

The LLM is an oracle from the user prompt to the response text.  The model
returns the final (cleaned) response together with the list of prompts sent,
in order, so the number of generation calls is observable. -/

/-- The corrective suffix appended to the prompt when the first response
contains no image reference. -/
def warningSuffix : String :=
  "\n\nWARNING: Your previous response did not include any images. YOU MUST INCLUDE AT LEAST ONE IMAGE using the format ![caption](description). This is a strict requirement."

/-- `re.sub(r"^```markdown", "", response)`: the anchored pattern matches at
most once, at the start. -/
def stripLeadingFence (s : String) : String :=
  if startsWithList "```markdown".data s.data then (s.data.drop 11).asString else s

/-- `re.sub(r"```$", "", response)`: a closing fence at the very end, or just
before one final newline. -/
def stripTrailingFence (s : String) : String :=
  let cs := s.data
  if startsWithList ['`', '`', '`'] cs.reverse then (cs.reverse.drop 3).reverse.asString
  else if startsWithList ['\n', '`', '`', '`'] cs.reverse then
    ((cs.reverse.drop 4).reverse ++ ['\n']).asString
  else s

def cleanupResponse (s : String) : String :=
  pyStrip (stripTrailingFence (stripLeadingFence s))

/-- `_generate_content` after the prompt is built: call the LLM once; when
images are requested and the response has no `![`, re-prompt exactly once
with the warning appended and use that second response; finally clean up
fence artifacts.  Returns `(final content, prompts sent in order)`. -/
def generateContent (llm : String → String) (includeImages : Bool) (userPrompt : String) :
    String × List String :=
  let r0 := llm userPrompt
  if includeImages && !containsSub ['!', '['] r0.data then
    let p2 := userPrompt ++ warningSuffix
    (cleanupResponse (llm p2), [userPrompt, p2])
  else (cleanupResponse r0, [userPrompt])

/-! ## Image generation (`ImageGenerationAgent.generate_image`)

`api` models `client.images.generate` (returning the image URL, or `none`
when the response carries no data or the call raises); `fetch` models the
`aiohttp` download (`none` on a non-200 status).  The second component
counts backend (`client.images.generate`) invocations. -/

def styleModifier (style : String) : String :=
  let s := style.toLower
  if s = "realistic" then
    "Create a photorealistic visualization with high detail and natural lighting. The image should appear lifelike and convincing, as if captured by a professional photographer."
  else if s = "diagram" then
    "Create a clear, professional diagram with clean lines and distinct elements. Use a simple color scheme with good contrast to ensure readability. The diagram should effectively communicate the structural or process relationships."
  else if s = "infographic" then
    "Create a modern infographic style visualization with a clean layout. Use a consistent color scheme, simple icons, and minimal design elements to communicate information clearly and effectively."
  else if s = "artistic" then
    "Create an artistic interpretation with creative use of color, composition, and style. The image should be visually appealing and evocative, with an emphasis on aesthetic quality."
  else
    "Create an abstract, conceptual visualization. Make it visually striking with modern design elements. The image should be artistic and symbolic, avoiding any explicit text or labels. Use visual metaphors and creative symbolism to convey the concept."

def constructPrompt (description style : String) : String :=
  description ++ ". " ++ styleModifier style

/-- `generate_image`: input validation first — an empty or shorter-than-10
description returns `none` with zero backend calls; otherwise one backend
call, then the download, then the path built from the slugified caption. -/
def generateImage (api : String → Option String) (fetch : String → Option Unit)
    (slug : String → String) (outputDir description caption style : String) :
    Option String × Nat :=
  if description.length < 10 then (none, 0)
  else
    match api (constructPrompt description style) with
    | none => (none, 1)
    | some url =>
      match fetch url with
      | none => (none, 1)
      | some _ => (some (outputDir ++ "/" ++ slug caption ++ ".png"), 1)

/-! ## Output path (`ContentWriterAgent.execute`, lines 142-144) -/

/-- `title.replace(" ", "_").replace(":", "_").replace("/", "_")`. -/
def filenameOf (title : String) : String :=
  (pyReplaceChar '/' '_' (pyReplaceChar ':' '_' (pyReplaceChar ' ' '_' title.data))).asString

/-- `output_path = f"output/{filename}.docx"`. -/
def outputPath (title : String) : String :=
  "output/" ++ filenameOf title ++ ".docx"

/-- The path the specification describes: every non-alphanumeric character
of the title replaced with `_`.  Stated from the spec's words only, for
comparison with `outputPath` (which embeds the source). -/
def specOutputPath (title : String) : String :=
  "output/" ++ (title.data.map (fun c => if c.isAlphanum then c else '_')).asString ++ ".docx"

/-! ## Retry with backoff (`web_research_agent.retry_with_backoff`)

The wrapped call is an oracle indexed by the attempt number.  The model
mirrors the `while retries < max_retries` loop: a successful attempt
returns immediately; a failed attempt either re-raises (when
`retries == max_retries` after the increment) or sleeps `backoff` seconds
and doubles the backoff.  The result records the Python return value
(`Except.ok none` models the implicit `None` return when the loop is never
entered), the number of attempts made, and the list of waits performed. -/

def retryGo {α : Type} (call : Nat → Except String α) (maxRetries : Nat)
    (retries backoff : Nat) (waits : List Nat) :
    Except String (Option α) × Nat × List Nat :=
  if _hlt : retries < maxRetries then
    match call retries with
    | Except.ok a => (Except.ok (some a), retries + 1, waits)
    | Except.error e =>
      if retries + 1 = maxRetries then (Except.error e, retries + 1, waits)
      else retryGo call maxRetries (retries + 1) (backoff * 2) (waits ++ [backoff])
  else (Except.ok none, retries, waits)
termination_by maxRetries - retries
decreasing_by omega

def retryWithBackoff {α : Type} (call : Nat → Except String α)
    (maxRetries initialBackoff : Nat) : Except String (Option α) × Nat × List Nat :=
  retryGo call maxRetries 0 initialBackoff []

/-! ## Section scheduler (`_process_section_async` / `_run_with_concurrency`)

A report structure is a tree of sections (`ReportSection`: title, content,
subsections).  Content generation is the oracle `gen` from the section title
to the generated text or an exception.  `_process_section_async` wraps no
`try`/`except` around `_generate_content`, and `_run_with_concurrency` uses
`asyncio.gather` without `return_exceptions=True`, so the first exception of
any child task is re-raised to the awaiting caller; the `Except` match below
embeds exactly that propagation. -/

inductive Sec where
  | node (title content : String) (subs : List Sec)
deriving Repr

mutual

/-- `_process_section_async` (one schedule): generate content when missing,
append the heading and the converted blocks, then process the subsections;
an exception from generation or from any subsection propagates. -/
def processSection (gen : String → Except String String) (imagesDir : Option String)
    (agent : String → String → Option String) (lvl : Nat) : Sec → Except String (List Block)
  | Sec.node title content subs =>
    match (if content = "" then gen title else Except.ok content) with
    | Except.error e => Except.error e
    | Except.ok body =>
      match processSections gen imagesDir agent (lvl + 1) subs with
      | Except.error e => Except.error e
      | Except.ok outs =>
        Except.ok (Block.heading lvl title :: (convertMarkdown imagesDir agent body).1
          ++ outs.flatten)

/-- `_run_with_concurrency` over a list of section tasks: `asyncio.gather`
re-raises the first exception; otherwise all results are collected. -/
def processSections (gen : String → Except String String) (imagesDir : Option String)
    (agent : String → String → Option String) (lvl : Nat) :
    List Sec → Except String (List (List Block))
  | [] => Except.ok []
  | s :: rest =>
    match processSection gen imagesDir agent lvl s with
    | Except.error e => Except.error e
    | Except.ok o =>
      match processSections gen imagesDir agent lvl rest with
      | Except.error e => Except.error e
      | Except.ok os => Except.ok (o :: os)

end

/-- `execute`: title heading, top-level sections via the scheduler, final
save returning the output path; an exception from the scheduler propagates
out of `execute`. -/
def executeRun (gen : String → Except String String) (imagesDir : Option String)
    (agent : String → String → Option String) (title : String) (sections : List Sec) :
    Except String (String × List Block) :=
  match processSections gen imagesDir agent 1 sections with
  | Except.error e => Except.error e
  | Except.ok outs => Except.ok (outputPath title, Block.heading 0 title :: outs.flatten)

mutual

/-- Titles of the sections whose content is empty, i.e. exactly those for
which `_process_section_async` calls `_generate_content`. -/
def gensNeeded : Sec → List String
  | Sec.node title content subs =>
    (if content = "" then [title] else []) ++ gensNeededList subs

def gensNeededList : List Sec → List String
  | [] => []
  | s :: rest => gensNeeded s ++ gensNeededList rest

end

/-! ## Document-order trace semantics (C2)

Each section appends its heading and its own converted blocks inside one
`async with doc_lock:` critical section, *before* creating any subsection
task; sibling subtrees then run concurrently and their lock-protected
appends interleave arbitrarily.  An execution trace records, per section
(identified by its path of child indices), the single atomic append event.
`Shuffle ts out` says `out` is an interleaving of the component traces `ts`
preserving each component's internal order — exactly the freedom
`asyncio.gather` leaves to the scheduler.  `SecTrace s p tr` says `tr` is a
possible sequence of append events for the subtree rooted at `s` (at path
`p`): first the section's own append, then any interleaving of its
subsections' traces. -/

inductive Shuffle {α : Type} : List (List α) → List α → Prop where
  | nil (ls : List (List α)) (h : ∀ l ∈ ls, l = []) : Shuffle ls []
  | step (ls : List (List α)) (i : Nat) (hi : i < ls.length) (x : α) (rest : List α)
      (out : List α) (hget : ls.get ⟨i, hi⟩ = x :: rest)
      (hs : Shuffle (ls.set i rest) out) : Shuffle ls (x :: out)

inductive SecTrace : Sec → List Nat → List (List Nat) → Prop where
  | node (title content : String) (subs : List Sec) (p : List Nat)
      (ts : List (List (List Nat))) (out : List (List Nat))
      (hlen : ts.length = subs.length)
      (hsub : ∀ (i : Nat) (hi : i < subs.length),
        SecTrace (subs.get ⟨i, hi⟩) (p ++ [i]) (ts.get ⟨i, hlen.symm ▸ hi⟩))
      (hshuf : Shuffle ts out) :
      SecTrace (Sec.node title content subs) p (p :: out)

/-! ## Spec-side comparison definitions

The two definitions below follow the specification's words (not the source)
and exist only to be compared with the source-embedding definitions. -/

/-- The numeric marker of a line that matches `^\d+\.\s` (digits and the
dot), used to observe what the renumbering pre-processing produced. -/
def numberedMarker (line : List Char) : Option String :=
  match splitMarker line with
  | some _ => some ((line.takeWhile (fun c => c.isDigit)).asString ++ ".")
  | none => none

/-- The specification's separator rule: a line composed solely of `-`, `|`
and whitespace.  Stated from the spec's words, for comparison with
`tableData` (which drops lines containing `---`). -/
def specSeparatorLine (l : List Char) : Bool :=
  l.all (fun c => c = '-' || c = '|' || isPyWS c)

/-- Table extraction as the specification words it: drop exactly the
separator lines, keep every other line as a row. -/
def specTableData (ls : List (List Char)) : List (List String) :=
  (ls.filter (fun l => !specSeparatorLine l)).map parseRow

/-! ## Claim theorems -/

/-- Claim C3, counterexample: the pre-processing rewrites a chunk with
markers `41.`, `42.`, `43.` so that every line carries the marker `1.` —
not the sequential markers `1.`, `2.`, `3.` the claim states. -/
theorem c3_renumber_counterexample :
    (splitOnChar '\n' (renumber "41. First\n42. Second\n43. Third").data).map numberedMarker
        = [some "1.", some "1.", some "1."] ∧
    (splitOnChar '\n' (renumber "41. First\n42. Second\n43. Third").data).map numberedMarker
        ≠ [some "1.", some "2.", some "3."] := by
  decide

/-- Claim C3, amended: every numbered marker in the chunk is rewritten to
the literal marker `1.` regardless of the source digits; the lines then
become numbered-list items in the original order with the marker stripped
(sequential display numbers are delegated to the docx `List Number` style). -/
theorem c3_amended_renumber (agent : String → String → Option String) :
    renumber "41. First\n42. Second\n43. Third" = "1. First\n1. Second\n1. Third" ∧
    convertMarkdown none agent "41. First\n42. Second\n43. Third" =
      ([Block.numberItem [{ text := "First" }],
        Block.numberItem [{ text := "Second" }],
        Block.numberItem [{ text := "Third" }]], []) :=
  ⟨by decide, rfl⟩

/-- Claim C4: evaluating the inline formatter at the claim's input shows the
code emits **two** runs — the first holds the before-text and after-text
concatenated (`run.text += after_italic` mutates the run added before the
italic run), the second is the nested bold+italic span — instead of the
three runs in source order the claim (and the code's own comments) require. -/
theorem c4_nested_runs_eval :
    processFormatting "**bold with *italic* inside**" =
      [{ text := "bold with  inside", bold := true },
       { text := "italic", bold := true, italic := true }] ∧
    processFormatting "**bold with *italic* inside**" ≠
      [{ text := "bold with ", bold := true },
       { text := "italic", bold := true, italic := true },
       { text := " inside", bold := true }] := by
  decide

/-- Claim C5, counterexample: the code drops every line containing `---`
anywhere, not exactly the lines composed solely of `-`, `|` and whitespace;
the data row `| x --- y | z |` is dropped although the claim says it must be
kept. -/
theorem c5_separator_counterexample :
    tableData ["| a | b |".data, "| x --- y | z |".data] = [["a", "b"]] ∧
    specTableData ["| a | b |".data, "| x --- y | z |".data]
      = [["a", "b"], ["x --- y", "z"]] ∧
    specSeparatorLine "| x --- y | z |".data = false ∧
    tableData ["| a | b |".data, "| x --- y | z |".data]
      ≠ specTableData ["| a | b |".data, "| x --- y | z |".data] := by
  decide

/-- Claim C5, amended: in a table chunk, exactly the lines containing the
substring `---` are dropped; a 3-line chunk whose middle line contains
`---` (and whose other lines do not) yields exactly 2 rows, the first being
the header row, so the created table's column count is the header row's
cell count. -/
theorem c5_amended_table (l1 l2 l3 : List Char)
    (hp1 : l1.contains '|' = true) (hp2 : l2.contains '|' = true)
    (hp3 : l3.contains '|' = true)
    (h1 : containsSub ['-', '-', '-'] l1 = false)
    (h2 : containsSub ['-', '-', '-'] l2 = true)
    (h3 : containsSub ['-', '-', '-'] l3 = false) :
    tableData [l1, l2, l3] = [parseRow l1, parseRow l3] ∧
    (tableData [l1, l2, l3]).length = 2 := by
  refine ⟨?_, ?_⟩ <;> simp [tableData, h1, h2, h3]

theorem c5_amended_table_witness :
    tableData ["| h1 | h2 |".data, "|---|---|".data, "| a | b |".data]
        = [parseRow "| h1 | h2 |".data, parseRow "| a | b |".data] ∧
    (tableData ["| h1 | h2 |".data, "|---|---|".data, "| a | b |".data]).length = 2 :=
  c5_amended_table "| h1 | h2 |".data "|---|---|".data "| a | b |".data
    (by decide) (by decide) (by decide) (by decide) (by decide) (by decide)

/-- Claim C7: a description that is empty or shorter than the 10-character
threshold makes `generate_image` return `None` with zero backend calls, and
makes the content writer's `_generate_and_save_image` return `None` without
invoking the image agent — a local validation rejection, never retried. -/
theorem c7_short_description_validation (api : String → Option String)
    (fetch : String → Option Unit) (slug : String → String)
    (outputDir desc caption style : String) (agent : String → String → Option String)
    (h : desc.length < 10) :
    generateImage api fetch slug outputDir desc caption style = (none, 0) ∧
    genAndSave agent desc caption = (none, []) := by
  refine ⟨?_, ?_⟩ <;> simp [generateImage, genAndSave, h]

theorem c7_short_description_validation_witness :
    generateImage (fun _ => none) (fun _ => none) (fun c => c) "output/images"
        "short" "Caption" "abstract" = (none, 0) ∧
    genAndSave (fun _ _ => none) "short" "Caption" = (none, []) :=
  c7_short_description_validation (fun _ => none) (fun _ => none) (fun c => c)
    "output/images" "short" "Caption" "abstract" (fun _ _ => none) (by decide)

/-- Claim C8: with images enabled, if the first response contains `![` then
exactly one generation call is made and used; otherwise exactly one
additional corrective call (prompt strengthened with the warning suffix) is
made and its response is used; never more than two calls. -/
theorem c8_single_corrective_reprompt (llm : String → String) (p : String) :
    (generateContent llm true p).2.length ≤ 2 ∧
    (containsSub ['!', '['] (llm p).data = true →
      generateContent llm true p = (cleanupResponse (llm p), [p])) ∧
    (containsSub ['!', '['] (llm p).data = false →
      generateContent llm true p
        = (cleanupResponse (llm (p ++ warningSuffix)), [p, p ++ warningSuffix])) := by
  refine ⟨?_, fun hc => ?_, fun hc => ?_⟩ <;>
    cases hx : containsSub ['!', '['] (llm p).data <;>
      simp_all [generateContent]

theorem c8_single_corrective_reprompt_witness :
    generateContent (fun _ => "text with ![img](a diagram)") true "P"
      = (cleanupResponse "text with ![img](a diagram)", ["P"]) :=
  (c8_single_corrective_reprompt (fun _ => "text with ![img](a diagram)") "P").2.1 (by decide)

/-- Claim C9, counterexample: the code replaces only spaces, colons and
slashes; a hyphen (non-alphanumeric) survives, so the produced path differs
from the path described by the specification for the title `A-B`. -/
theorem c9_path_counterexample :
    outputPath "A-B" = "output/A-B.docx" ∧
    specOutputPath "A-B" = "output/A_B.docx" ∧
    outputPath "A-B" ≠ specOutputPath "A-B" := by
  decide

/-- Claim C9, amended: the output path is derived deterministically from the
title by replacing every space, colon and slash (only those characters)
with `_`, between the fixed `output/` directory and `.docx` suffix. -/
theorem c9_amended_path (title : String) :
    outputPath title =
      "output/"
        ++ (title.data.map
              (fun c => if c = ' ' || c = ':' || c = '/' then '_' else c)).asString
        ++ ".docx" := by
  have hmap : ∀ cs : List Char,
      pyReplaceChar '/' '_' (pyReplaceChar ':' '_' (pyReplaceChar ' ' '_' cs))
        = cs.map (fun c => if c = ' ' || c = ':' || c = '/' then '_' else c) := by
    intro cs
    induction cs with
    | nil => rfl
    | cons c cs ih =>
      by_cases h1 : c = ' ' <;> by_cases h2 : c = ':' <;> by_cases h3 : c = '/' <;>
        simp_all [pyReplaceChar]
  simp [outputPath, filenameOf, hmap]

/-- Claim C10, counterexample: with images disabled the chunk falls through
to paragraph processing, but the inline formatter treats
`[caption](description)` as a link — the paragraph's runs are a plain `!`
and a link-styled `cap` (the description is dropped), not the literal
`![cap](desc)` text the claim states. -/
theorem c10_literal_text_counterexample :
    convertMarkdown none (fun _ _ => none) "![cap](desc)" =
      ([Block.para [{ text := "!" }, { text := "cap", link := true }]], []) ∧
    convertMarkdown none (fun _ _ => none) "![cap](desc)" ≠
      ([Block.para [{ text := "![cap](desc)" }]], []) := by
  decide

/-- Claim C10, amended: when no images directory is supplied, an image
chunk is not treated as an image block — no generation call is recorded,
the markup is not removed, and the chunk is rendered as a paragraph in
which the `[caption](description)` part matches the inline link rule,
producing a plain `!` run and a link run `cap` (the description text is
dropped). -/
theorem c10_amended_fallthrough (agent : String → String → Option String) :
    convertMarkdown none agent "![cap](desc)" =
      ([Block.para [{ text := "!" }, { text := "cap", link := true }]], []) :=
  rfl

/-- A doubled starting backoff shifts the geometric wait schedule by one. -/
theorem waitsShift (b k : Nat) (w : List Nat) :
    w ++ [b] ++ (List.range k).map (fun j => b * 2 * 2 ^ j)
      = w ++ (List.range (k + 1)).map (fun j => b * 2 ^ j) := by
  rw [List.append_assoc, List.singleton_append, List.range_succ_eq_map, List.map_cons,
    List.map_map]
  simp only [pow_zero, mul_one]
  refine congrArg (fun l => w ++ l)
    (congrArg (List.cons b) (List.map_congr_left (fun j _ => ?_)))
  simp only [Function.comp_apply, pow_succ]
  ring

/-- Behaviour of the retry loop from an arbitrary intermediate state when
the attempts `retries`, …, `retries + k - 1` fail and attempt `retries + k`
succeeds strictly inside the budget. -/
theorem retryGo_ok {α : Type} (call : Nat → Except String α) (maxRetries : Nat) (a : α) :
    ∀ (k r b : Nat) (w : List Nat), r + k < maxRetries →
      (∀ j, j < k → ∃ e, call (r + j) = Except.error e) →
      call (r + k) = Except.ok a →
      retryGo call maxRetries r b w
        = (Except.ok (some a), r + k + 1, w ++ (List.range k).map (fun j => b * 2 ^ j)) := by
  intro k
  induction k with
  | zero =>
    intro r b w hk _ hok
    rw [retryGo, dif_pos (by omega)]
    simp at hok
    simp [hok]
  | succ k ih =>
    intro r b w hk hfail hok
    obtain ⟨e, he⟩ := hfail 0 (by omega)
    simp only [Nat.add_zero] at he
    rw [retryGo, dif_pos (by omega)]
    simp only [he]
    rw [if_neg (by omega)]
    have hstep := ih (r + 1) (b * 2) (w ++ [b]) (by omega)
      (fun j hj => by
        obtain ⟨e2, he2⟩ := hfail (j + 1) (by omega)
        exact ⟨e2, by rw [← he2]; ring_nf⟩)
      (by rw [← hok]; ring_nf)
    rw [hstep, waitsShift]
    simp only [Prod.mk.injEq, true_and, and_true]
    omega

/-- Behaviour of the retry loop when every remaining attempt fails: the
last error is re-raised after `maxRetries` total attempts. -/
theorem retryGo_fail {α : Type} (call : Nat → Except String α) (maxRetries : Nat) :
    ∀ (n r b : Nat) (w : List Nat), r + n = maxRetries → 1 ≤ n →
      (∀ j, j < n → ∃ e, call (r + j) = Except.error e) →
      ∃ e, call (maxRetries - 1) = Except.error e ∧
        retryGo call maxRetries r b w
          = (Except.error e, maxRetries, w ++ (List.range (n - 1)).map (fun j => b * 2 ^ j)) := by
  intro n
  induction n with
  | zero => intro r b w _ h1; omega
  | succ n ih =>
    intro r b w hsum _ hfail
    obtain ⟨e, he⟩ := hfail 0 (by omega)
    simp only [Nat.add_zero] at he
    cases Nat.eq_zero_or_pos n with
    | inl hn0 =>
      subst hn0
      refine ⟨e, by rw [show maxRetries - 1 = r by omega]; exact he, ?_⟩
      rw [retryGo, dif_pos (by omega)]
      simp only [he]
      rw [if_pos (by omega)]
      simp
      omega
    | inr hn1 =>
      obtain ⟨e2, he2, hrec⟩ := ih (r + 1) (b * 2) (w ++ [b]) (by omega) hn1
        (fun j hj => by
          obtain ⟨e3, he3⟩ := hfail (j + 1) (by omega)
          exact ⟨e3, by rw [← he3]; ring_nf⟩)
      refine ⟨e2, he2, ?_⟩
      rw [retryGo, dif_pos (by omega)]
      simp only [he]
      rw [if_neg (by omega), hrec, waitsShift]
      have hn : n - 1 + 1 = n := by omega
      rw [hn]
      simp only [Nat.add_sub_cancel]

/-- Claim C6: the retry wrapper returns the first successful attempt's
result immediately (after `k` failures, `k + 1` attempts and waits
`b, 2b, …, 2^(k-1)·b`); when every attempt fails it performs exactly
`max_retries` attempts, waiting `b` before the first retry and doubling
before each subsequent one, and re-raises the last error to the caller. -/
theorem c6_retry_with_backoff {α : Type} (call : Nat → Except String α)
    (maxRetries b : Nat) (hm : 1 ≤ maxRetries) :
    (∀ (k : Nat) (a : α), k < maxRetries →
      (∀ j, j < k → ∃ e, call j = Except.error e) → call k = Except.ok a →
      retryWithBackoff call maxRetries b
        = (Except.ok (some a), k + 1, (List.range k).map (fun j => b * 2 ^ j))) ∧
    ((∀ j, j < maxRetries → ∃ e, call j = Except.error e) →
      ∃ e, call (maxRetries - 1) = Except.error e ∧
        retryWithBackoff call maxRetries b
          = (Except.error e, maxRetries, (List.range (maxRetries - 1)).map (fun j => b * 2 ^ j))) := by
  constructor
  · intro k a hk hfail hok
    have := retryGo_ok call maxRetries a k 0 b [] (by omega)
      (fun j hj => by simpa using hfail j hj) (by simpa using hok)
    simpa [retryWithBackoff] using this
  · intro hfail
    obtain ⟨e, he, hr⟩ := retryGo_fail call maxRetries maxRetries 0 b [] (by omega) hm
      (fun j hj => by simpa using hfail j hj)
    exact ⟨e, he, by simpa [retryWithBackoff] using hr⟩

theorem c6_retry_with_backoff_witness :
    ∃ e, (fun _ : Nat => (Except.error "boom" : Except String Nat)) 2 = Except.error e ∧
      retryWithBackoff (fun _ : Nat => (Except.error "boom" : Except String Nat)) 3 1
        = (Except.error e, 3, [1, 2]) := by
  obtain ⟨e, he, hr⟩ :=
    (c6_retry_with_backoff (fun _ : Nat => (Except.error "boom" : Except String Nat))
      3 1 (by decide)).2 (fun j _ => ⟨"boom", rfl⟩)
  refine ⟨e, he, ?_⟩
  rw [hr, show (List.range (3 - 1)).map (fun j => 1 * 2 ^ j) = [1, 2] from by decide]

mutual

/-- When a generation the tree needs fails, `_process_section_async` raises:
there is no `try`/`except` between `_generate_content` and the caller. -/
theorem processSection_error_of_needed (gen : String → Except String String)
    (imagesDir : Option String) (agent : String → String → Option String) :
    ∀ (lvl : Nat) (s : Sec) (t e : String), t ∈ gensNeeded s →
      gen t = Except.error e →
      ∃ e2, processSection gen imagesDir agent lvl s = Except.error e2
  | lvl, Sec.node title content subs, t, e, ht, he => by
    rw [processSection]
    by_cases hc : content = ""
    · have hmem : t = title ∨ t ∈ gensNeededList subs := by
        rw [gensNeeded, if_pos hc] at ht
        simpa using ht
      rw [if_pos hc]
      cases hgen : gen title with
      | error e3 => exact ⟨e3, rfl⟩
      | ok v =>
        have ht2 : t ∈ gensNeededList subs := by
          rcases hmem with h1 | h2
          · exact absurd (h1 ▸ he) (by simp [hgen])
          · exact h2
        obtain ⟨e2, hs⟩ :=
          processSections_error_of_needed gen imagesDir agent (lvl + 1) subs t e ht2 he
        exact ⟨e2, by rw [hs]⟩
    · have ht2 : t ∈ gensNeededList subs := by
        rw [gensNeeded, if_neg hc] at ht
        simpa using ht
      rw [if_neg hc]
      obtain ⟨e2, hs⟩ :=
        processSections_error_of_needed gen imagesDir agent (lvl + 1) subs t e ht2 he
      exact ⟨e2, by rw [hs]⟩

/-- `asyncio.gather` propagation over a list of sibling sections. -/
theorem processSections_error_of_needed (gen : String → Except String String)
    (imagesDir : Option String) (agent : String → String → Option String) :
    ∀ (lvl : Nat) (ss : List Sec) (t e : String), t ∈ gensNeededList ss →
      gen t = Except.error e →
      ∃ e2, processSections gen imagesDir agent lvl ss = Except.error e2
  | lvl, [], t, e, ht, _ => by
    rw [gensNeededList] at ht
    exact absurd ht (by simp)
  | lvl, s :: rest, t, e, ht, he => by
    rw [processSections]
    have hmem : t ∈ gensNeeded s ∨ t ∈ gensNeededList rest := by
      rw [gensNeededList] at ht
      simpa using ht
    cases hps : processSection gen imagesDir agent lvl s with
    | error e3 => exact ⟨e3, rfl⟩
    | ok o =>
      have ht2 : t ∈ gensNeededList rest := by
        rcases hmem with h1 | h2
        · obtain ⟨e2, hs⟩ :=
            processSection_error_of_needed gen imagesDir agent lvl s t e h1 he
          exact absurd (hps ▸ hs) (by simp)
        · exact h2
      obtain ⟨e2, hs⟩ :=
        processSections_error_of_needed gen imagesDir agent lvl rest t e ht2 he
      exact ⟨e2, by rw [hs]⟩

end

/-- Claim C1 (amended): a content-generation failure for a section whose
content must be generated is **not** caught at the section boundary — the
exception propagates through `asyncio.gather` and out of `execute`, so the
run raises instead of reporting success. -/
theorem c1_amended_failure_propagates (gen : String → Except String String)
    (imagesDir : Option String) (agent : String → String → Option String)
    (title t e : String) (sections : List Sec)
    (ht : t ∈ gensNeededList sections) (he : gen t = Except.error e) :
    ∃ e2, executeRun gen imagesDir agent title sections = Except.error e2 := by
  obtain ⟨e2, h⟩ := processSections_error_of_needed gen imagesDir agent 1 sections t e ht he
  exact ⟨e2, by rw [executeRun, h]⟩

theorem c1_amended_failure_propagates_witness :
    ∃ e2, executeRun
        (fun t => if t = "Alpha" then Except.error "boom" else Except.ok "Body text")
        none (fun _ _ => none) "T"
        [Sec.node "Alpha" "" [], Sec.node "Beta" "" []] = Except.error e2 :=
  c1_amended_failure_propagates
    (fun t => if t = "Alpha" then Except.error "boom" else Except.ok "Body text")
    none (fun _ _ => none) "T" "Alpha" "boom"
    [Sec.node "Alpha" "" [], Sec.node "Beta" "" []]
    (by simp [gensNeededList, gensNeeded]) (by simp)

/-- Claim C1, counterexample: with two empty sibling sections where only the
first one's generation raises, `execute` returns the raised error — the run
does not resolve successfully with the failed section recorded, and no
sibling output reaches a successful result. -/
theorem c1_failure_counterexample :
    executeRun (fun t => if t = "Alpha" then Except.error "boom" else Except.ok "Body text")
        none (fun _ _ => none) "T"
        [Sec.node "Alpha" "" [], Sec.node "Beta" "" []]
      = Except.error "boom" := by
  rw [executeRun, processSections, processSection]
  simp

/-- Every component of a shuffle embeds into the output as a sublist:
interleaving preserves each component's internal order. -/
theorem Shuffle.get_sublist {α : Type} {ls : List (List α)} {out : List α}
    (h : Shuffle ls out) :
    ∀ (i : Nat) (hi : i < ls.length), List.Sublist (ls.get ⟨i, hi⟩) out := by
  induction h with
  | nil ls hnil =>
    intro i hi
    rw [hnil _ (List.get_mem ls _ _)]
  | step ls i hi x rest out hget hs ih =>
    intro j hj
    by_cases hij : j = i
    · subst hij
      rw [hget]
      refine List.Sublist.cons₂ x ?_
      have hj2 : j < (ls.set j rest).length := by simpa using hj
      have hr := ih j hj2
      simpa only [List.get_eq_getElem, List.getElem_set_self] using hr
    · have hj2 : j < (ls.set i rest).length := by simpa using hj
      have hr := ih j hj2
      simp only [List.get_eq_getElem] at hr ⊢
      rw [List.getElem_set_ne (fun hcon => hij hcon.symm)] at hr
      exact hr.cons x

/-- Every element of a shuffle's output comes from some component. -/
theorem Shuffle.mem_exists {α : Type} {ls : List (List α)} {out : List α}
    (h : Shuffle ls out) :
    ∀ a ∈ out, ∃ (i : Nat) (hi : i < ls.length), a ∈ ls.get ⟨i, hi⟩ := by
  induction h with
  | nil ls hnil => intro a ha; simp at ha
  | step ls i hi x rest out hget hs ih =>
    intro a ha
    rcases List.mem_cons.mp ha with h1 | h2
    · exact ⟨i, hi, by rw [hget, h1]; exact List.mem_cons_self x rest⟩
    · obtain ⟨j, hj, hmem⟩ := ih a h2
      by_cases hij : j = i
      · subst hij
        simp only [List.get_eq_getElem, List.getElem_set_self] at hmem
        exact ⟨j, by simpa using hj, by rw [hget]; exact List.mem_cons_of_mem x hmem⟩
      · simp only [List.get_eq_getElem] at hmem
        rw [List.getElem_set_ne (fun hcon => hij hcon.symm)] at hmem
        refine ⟨j, by simpa using hj, ?_⟩
        simpa only [List.get_eq_getElem] using hmem

/-- Every append event in a section's trace is at a path extending the
section's own path. -/
theorem SecTrace.events_extend {s : Sec} {p : List Nat} {tr : List (List Nat)}
    (h : SecTrace s p tr) : ∀ q ∈ tr, ∃ r, p ++ r = q := by
  induction h with
  | node title content subs p ts out hlen hsub hshuf ih =>
    intro q hq
    rcases List.mem_cons.mp hq with h1 | h2
    · exact ⟨[], by simp [h1]⟩
    · obtain ⟨i, hi, hmem⟩ := hshuf.mem_exists q h2
      have hi2 : i < subs.length := by omega
      obtain ⟨r2, hr2⟩ := ih i hi2 q hmem
      exact ⟨i :: r2, by rw [← hr2]; simp⟩

/-- Claim C2: in every execution trace of the scheduler — every interleaving
the concurrent subsection tasks allow — a section's own append event
precedes the append event of each of its descendants: the pair
`[ancestor, descendant]` is a sublist of the trace.  (A section's own
blocks are appended inside one lock-protected critical section before any
subsection task is created.) -/
theorem c2_parent_before_children {s : Sec} {p : List Nat} {tr : List (List Nat)}
    (h : SecTrace s p tr) :
    ∀ u v : List Nat, u ∈ tr → v ∈ tr → (∃ r, r ≠ [] ∧ u ++ r = v) →
      List.Sublist [u, v] tr := by
  induction h with
  | node title content subs p ts out hlen hsub hshuf ih =>
    intro u v hu hv hdesc
    obtain ⟨r, hrne, hr⟩ := hdesc
    rcases List.mem_cons.mp hu with hup | huo
    · subst hup
      have hvo : v ∈ out := by
        rcases List.mem_cons.mp hv with hvp | hvo
        · exfalso
          rw [hvp] at hr
          rcases r with _ | ⟨a, as⟩
          · exact hrne rfl
          · have h0 := congrArg List.length hr
            simp at h0
        · exact hvo
      exact List.Sublist.cons₂ u (List.singleton_sublist.mpr hvo)
    · obtain ⟨i, hi, hui⟩ := hshuf.mem_exists u huo
      have hi2 : i < subs.length := by omega
      obtain ⟨r1, hr1⟩ := (hsub i hi2).events_extend u hui
      have hvo : v ∈ out := by
        rcases List.mem_cons.mp hv with hvp | hvo
        · exfalso
          have hlenv := congrArg List.length hr
          rw [hvp] at hlenv
          have hlenu := congrArg List.length hr1
          simp at hlenv hlenu
          omega
        · exact hvo
      obtain ⟨j, hj, hvj⟩ := hshuf.mem_exists v hvo
      have hj2 : j < subs.length := by omega
      obtain ⟨r2, hr2⟩ := (hsub j hj2).events_extend v hvj
      have hij : i = j := by
        have hpq : p ++ (i :: (r1 ++ r)) = p ++ (j :: r2) := by
          calc p ++ (i :: (r1 ++ r)) = ((p ++ [i]) ++ r1) ++ r := by simp
          _ = u ++ r := by rw [hr1]
          _ = v := hr
          _ = p ++ (j :: r2) := by rw [← hr2]; simp
        have := List.append_cancel_left hpq
        exact (List.cons.injEq _ _ _ _ ▸ this).1
      subst hij
      have hsubl := ih i hi2 u v hui hvj ⟨r, hrne, hr⟩
      have hts : List.Sublist (ts.get ⟨i, hi⟩) out := hshuf.get_sublist i hi
      exact (hsubl.trans hts).cons p

theorem c2_parent_before_children_witness :
    List.Sublist [([] : List Nat), [0]] [[], [0]] := by
  have hchild : SecTrace (Sec.node "Child" "c" []) [0] [[0]] := by
    have hshuf : Shuffle ([] : List (List (List Nat))) [] :=
      Shuffle.nil [] (by intro l hl; simp at hl)
    exact SecTrace.node "Child" "c" [] [0] [] [] rfl
      (by intro i hi; simp at hi) hshuf
  have hshuf2 : Shuffle [[[0]]] ([([0] : List Nat)] : List (List Nat)) := by
    refine Shuffle.step [[[0]]] 0 (by simp) [0] [] [] rfl ?_
    exact Shuffle.nil [[]] (by intro l hl; simpa using hl)
  have hroot : SecTrace (Sec.node "Root" "" [Sec.node "Child" "c" []]) []
      ([([] : List Nat), [0]]) := by
    refine SecTrace.node "Root" "" [Sec.node "Child" "c" []] [] [[[0]]] [[0]] rfl ?_ hshuf2
    intro i hi
    have hi0 : i = 0 := by simp at hi; omega
    subst hi0
    exact hchild
  exact c2_parent_before_children hroot [] [0] (by simp) (by simp)
    ⟨[0], by simp, rfl⟩

end AIDocGen
